import Mathlib

/-!
Verification of the drag-and-drop reordering and change-derivation engine of the
ReactDragNDrop widget.

The pure computation kernel of the widget lives in
`src/components/utils/dropHandlers.ts`, `itemUtils.ts`, `validation.ts` and in the
pure helpers of `src/components/DragAndDropList.tsx` (`getDropZone`, `filterChanges`,
`handleSameListDrop`).  Those functions are embedded below as executable Lean
definitions; JavaScript arrays become `List`, nullable values become `Option`,
numbers become `Int`/`Nat` (array indices) or `ℚ` (pixel geometry), and the
ECMAScript stable `Array.prototype.sort` becomes `List.insertionSort`
(insertion sort is a stable sort, and a stable sort is uniquely determined by
the comparator, so this is the exact function computed by any conforming
JavaScript engine).

Spec-side reference definitions (marked "Modelled from the spec") restate the
behaviours the specification describes in §4.4 and §8, to be compared with the
code-side embeddings by the refinement theorems at the end of the file.
-/

namespace ReactDnD

/-- The three drop zones of the engine ('before' | 'after' | 'on'). -/
inductive DropType where
  | before
  | after
  | on
deriving DecidableEq, Repr

/-- The `dropOption` configuration value ('auto' | 'before' | 'after' | 'on'). -/
inductive DropOption where
  | auto
  | before
  | after
  | on
deriving DecidableEq, Repr

/-- The `changeJsonMode` configuration value. -/
inductive ChangeJsonMode where
  | fullChange
  | targetOnly
deriving DecidableEq, Repr

/-- `DragItem` from `src/components/types.ts` restricted to the fields the pure
engine reads: `uuid`, `originalIndex` (the position value) and `listId`.  The
opaque Mendix `object` handle and the duplicated `listName` field are never
inspected by the drop handlers. -/
structure DragItem where
  uuid : String
  originalIndex : Int
  listId : String
deriving DecidableEq, Repr

/-- The `{ uuid, originalIndex }` pairs of `sourceListAllItems` snapshots. -/
structure SourceItem where
  uuid : String
  originalIndex : Int
deriving DecidableEq, Repr

/-- `ChangeRecord` from `src/components/types.ts`: `newIndex` is `null` only for
`on` drops; `dropType`/`targetItemUuid` are optional fields. -/
structure ChangeRecord where
  uuid : String
  newIndex : Option Int
  sourceListId : String
  targetListId : String
  dropType : Option DropType
  targetItemUuid : Option String
deriving DecidableEq, Repr

/-- One raw datasource row as seen by `initializeItems`: the value of the uuid
attribute and the value of the sorting attribute (a Big.js decimal in Mendix,
modelled as an integer; a Big.js object is truthy whenever it is defined, so
the JavaScript test `sortValue?.value ? Number(sortValue.value) : index`
falls back to the array index exactly when the value is absent). -/
structure SourceDataItem where
  uuidValue : Option String
  sortValue : Option Int
deriving DecidableEq, Repr

/-- The payload stored in `dataTransfer` during cross-list drags
(`DragDataTransfer` in `src/components/utils/validation.ts`). -/
structure DragDataTransfer where
  sourceListId : String
  sourceListAllowedLists : Option String
  itemUuids : List String
  sourceListAllItems : Option (List SourceItem)
deriving DecidableEq, Repr

/-- Ascending stable sort by `originalIndex`; embeds the JavaScript
`sort((a, b) => a.originalIndex - b.originalIndex)` on `SourceItem` arrays. -/
def sortSourceItems (l : List SourceItem) : List SourceItem :=
  List.insertionSort (fun a b => a.originalIndex ≤ b.originalIndex) l

/-- Ascending stable sort by `originalIndex`; embeds the JavaScript
`sort((a, b) => a.originalIndex - b.originalIndex)` on `DragItem` arrays. -/
def sortDragItems (l : List DragItem) : List DragItem :=
  List.insertionSort (fun a b => a.originalIndex ≤ b.originalIndex) l

/-- Descending sort of numeric indices; embeds `sort((a, b) => b - a)`. -/
def sortIndicesDesc (l : List Nat) : List Nat :=
  List.insertionSort (fun a b => b ≤ a) l

/-- `generateSourceListReindexing` from `dropHandlers.ts` (lines 13-29):
survivors of the source list, sorted by `originalIndex`, re-indexed `0..n-1`. -/
def generateSourceListReindexing (sourceListAllItems : List SourceItem)
    (movedUuids : List String) (sourceListId : String) : List ChangeRecord :=
  let remainingItems :=
    sortSourceItems (sourceListAllItems.filter (fun item => !(movedUuids.contains item.uuid)))
  remainingItems.enum.map (fun p =>
    { uuid := p.2.uuid, newIndex := some (p.1 : Int), sourceListId := sourceListId,
      targetListId := sourceListId, dropType := none, targetItemUuid := none })

/-- `handleDropToEmptyList` from `dropHandlers.ts` (lines 34-64). -/
def handleDropToEmptyList (itemsBeingDragged : List String)
    (sourceListId targetListId : String)
    (sourceListAllItems : Option (List SourceItem)) : List ChangeRecord :=
  itemsBeingDragged.enum.map (fun p =>
    { uuid := p.2, newIndex := some (p.1 : Int), sourceListId := sourceListId,
      targetListId := targetListId, dropType := some DropType.after, targetItemUuid := none })
  ++ (match sourceListAllItems with
      | some l => generateSourceListReindexing l itemsBeingDragged sourceListId
      | none => [])

/-- An entry of the virtual merged array built by `handleCrossListBeforeAfterDrop`
(the `dropType` field it also stores is never read, so it is omitted here). -/
structure VirtualItem where
  uuid : String
  isNew : Bool
deriving DecidableEq, Repr

/-- `handleCrossListBeforeAfterDrop` from `dropHandlers.ts` (lines 106-171).
The two index loops that copy `existingItems[0..insertIndex)` and
`existingItems[insertIndex..)` are `take`/`drop`; the caller always passes
`insertIndex ≤ existingItems.length` (it is a found index, possibly plus one). -/
def handleCrossListBeforeAfterDrop (itemsBeingDragged : List String)
    (existingItems : List DragItem) (insertIndex : Nat) (dropType : DropType)
    (sourceListId targetListId targetItemUuid : String)
    (sourceListAllItems : Option (List SourceItem)) : List ChangeRecord :=
  let virtualItems : List VirtualItem :=
    (existingItems.take insertIndex).map (fun i => { uuid := i.uuid, isNew := false })
    ++ itemsBeingDragged.map (fun u => { uuid := u, isNew := true })
    ++ (existingItems.drop insertIndex).map (fun i => { uuid := i.uuid, isNew := false })
  let targetChanges := virtualItems.enum.filterMap (fun p =>
    if p.2.isNew then
      some { uuid := p.2.uuid, newIndex := some (p.1 : Int), sourceListId := sourceListId,
             targetListId := targetListId, dropType := some dropType,
             targetItemUuid := some targetItemUuid }
    else
      match existingItems.find? (fun i => i.uuid == p.2.uuid) with
      | some existingItem =>
        if existingItem.originalIndex ≠ (p.1 : Int) then
          some { uuid := p.2.uuid, newIndex := some (p.1 : Int), sourceListId := targetListId,
                 targetListId := targetListId, dropType := none, targetItemUuid := none }
        else none
      | none => none)
  targetChanges
  ++ (match sourceListAllItems with
      | some l => generateSourceListReindexing l itemsBeingDragged sourceListId
      | none => [])

/-- One step of the removal loop of `handleSameListReorder`:
`removed.unshift(...newItems.splice(idx, 1))` on the state
`(newItems, removed)`; out-of-range splices remove nothing. -/
def spliceStep (p : List DragItem × List DragItem) (idx : Nat) :
    List DragItem × List DragItem :=
  match p.1[idx]? with
  | some x => (p.1.eraseIdx idx, x :: p.2)
  | none => p

/-- The removal phase of `handleSameListReorder` (lines 190-203): collect the
index of every dragged item, sort the indices descending, and splice them out
one by one, accumulating the removed items (each `unshift` puts the most
recently removed - lowest-index - item in front). -/
def removeDragged (allItems draggedItems : List DragItem) :
    List DragItem × List DragItem :=
  let draggedIndices :=
    draggedItems.filterMap (fun d => allItems.findIdx? (fun i => i.uuid == d.uuid))
  (sortIndicesDesc draggedIndices).foldl spliceStep (allItems, [])

/-- `handleSameListReorder` from `dropHandlers.ts` (lines 176-251). -/
def handleSameListReorder (draggedItems allItems : List DragItem)
    (draggedOverItem : DragItem) (dropType : Option DropType) (listId : String) :
    List DragItem × List ChangeRecord :=
  if (allItems.findIdx? (fun i => i.uuid == draggedOverItem.uuid)).isNone then
    (allItems, [])
  else
    let pr := removeDragged allItems draggedItems
    match dropType with
    | some DropType.on =>
      (pr.1 ++ pr.2,
       draggedItems.map (fun d =>
         { uuid := d.uuid, newIndex := none, sourceListId := listId, targetListId := listId,
           dropType := some DropType.on, targetItemUuid := some draggedOverItem.uuid }))
    | _ =>
      let inserted :=
        match pr.1.findIdx? (fun i => i.uuid == draggedOverItem.uuid) with
        | some insertIndex =>
          let finalInsertIndex :=
            if dropType == some DropType.after then insertIndex + 1 else insertIndex
          pr.1.take finalInsertIndex ++ pr.2 ++ pr.1.drop finalInsertIndex
        | none => pr.1
      let draggedUuids := draggedItems.map (fun i => i.uuid)
      (inserted,
       inserted.enum.filterMap (fun p =>
         if p.2.originalIndex ≠ (p.1 : Int) then
           some (if draggedUuids.contains p.2.uuid then
             { uuid := p.2.uuid, newIndex := some (p.1 : Int), sourceListId := listId,
               targetListId := listId, dropType := some (dropType.getD DropType.after),
               targetItemUuid := some draggedOverItem.uuid }
           else
             { uuid := p.2.uuid, newIndex := some (p.1 : Int), sourceListId := listId,
               targetListId := listId, dropType := none, targetItemUuid := none })
         else none))

/-- The mapping phase of `initializeItems` from `itemUtils.ts` (lines 33-55):
uuid falls back to `item-<index>`, the sort index is the sorting attribute
value when the attribute is configured and the value is present, and the array
index otherwise. -/
def toDragItems (items : List SourceDataItem) (hasSortingAttribute : Bool)
    (listId : String) : List DragItem :=
  items.enum.map (fun p =>
    { uuid := match p.2.uuidValue with
              | some u => u
              | none => "item-" ++ toString p.1,
      originalIndex :=
        if hasSortingAttribute then
          match p.2.sortValue with
          | some v => v
          | none => (p.1 : Int)
        else (p.1 : Int),
      listId := listId })

/-- `initializeItems` from `itemUtils.ts` (lines 23-61): map the datasource rows
to `DragItem`s, then sort by `originalIndex`. -/
def initializeItems (dataSource : Option (List SourceDataItem))
    (hasSortingAttribute : Bool) (listId : String) : List DragItem :=
  match dataSource with
  | none => []
  | some items => sortDragItems (toDragItems items hasSortingAttribute listId)

/-- The ECMAScript `String.prototype.trim` primitive, modelled over the
character list of the string: strip leading and trailing whitespace. -/
def trimChars (s : List Char) : List Char :=
  ((s.dropWhile Char.isWhitespace).reverse.dropWhile Char.isWhitespace).reverse

/-- The ECMAScript `String.prototype.split(",")` primitive, modelled over the
character list: split at every comma, keeping empty pieces. -/
def splitOnComma : List Char → List (List Char)
  | [] => [[]]
  | c :: cs =>
    if c = ',' then [] :: splitOnComma cs
    else
      match splitOnComma cs with
      | [] => [[c]]
      | h :: t => (c :: h) :: t

/-- `parseAllowedLists` from `validation.ts`: split on commas, trim each piece,
drop the empty ones. -/
def parseAllowedLists (allowedListsString : Option String) : List String :=
  match allowedListsString with
  | none => []
  | some s =>
    (((splitOnComma s.data).map trimChars).filter (fun id => id.length != 0)).map String.mk

/-- `isDropAllowed` from `validation.ts` (lines 18-32).  The unused
`_sourceListId` parameter is kept for fidelity with the source signature.
`none` models the JavaScript `undefined`; the falsiness test
`!sourceAllowedLists` also catches the empty string, and `trim() === ""` is
the emptiness of the trimmed character list. -/
def isDropAllowed (sourceAllowedLists : Option String) (_sourceListId targetListId : String) :
    Bool :=
  match sourceAllowedLists with
  | none => false
  | some s =>
    if s == "" || trimChars s.data == [] then false
    else
      ((((splitOnComma s.data).map trimChars).filter
          (fun id => id.length != 0)).map String.mk).contains targetListId

/-- `getDropZone` from `DragAndDropList.tsx` (lines 959-984).  Pixel geometry is
modelled with exact rationals; `rectTop` and `height` describe the target
rectangle and `clientY` the pointer. -/
def getDropZone (dropOption : DropOption) (allowDropOn : Bool)
    (rectTop height clientY : ℚ) : DropType :=
  match dropOption with
  | DropOption.before => DropType.before
  | DropOption.on => DropType.on
  | DropOption.after => DropType.after
  | DropOption.auto =>
    let offsetY := clientY - rectTop
    if !allowDropOn then
      if offsetY < height / 2 then DropType.before else DropType.after
    else
      let thirdHeight := height / 3
      if offsetY < thirdHeight then DropType.before
      else if offsetY < thirdHeight * 2 then DropType.on
      else DropType.after

/-- `filterChanges` from `DragAndDropList.tsx` (lines 799-804). -/
def filterChanges (mode : ChangeJsonMode) (changes : List ChangeRecord) : List ChangeRecord :=
  match mode with
  | ChangeJsonMode.targetOnly =>
    changes.filter (fun c => c.dropType.isSome || c.targetItemUuid.isSome)
  | ChangeJsonMode.fullChange => changes

/-- `handleSameListDrop` from `DragAndDropList.tsx` (lines 1113-1143), as the pure
state transformer it performs: the result is the new `items` state together
with the batch of Change Records written to `changeJsonAttribute` (`none` when
nothing is written).  Early returns leave the items untouched and write
nothing. -/
def handleSameListDrop (allowedLists : Option String) (listId : String)
    (draggedItems : List DragItem) (draggedOverItem : DragItem)
    (currentDropType : Option DropType) (items : List DragItem)
    (hasSortingAttribute : Bool) (changeJsonMode : ChangeJsonMode) :
    List DragItem × Option (List ChangeRecord) :=
  if !(isDropAllowed (some (allowedLists.getD "")) listId listId) then
    (items, none)
  else if draggedItems.any (fun i => i.uuid == draggedOverItem.uuid) then
    (items, none)
  else
    let r := handleSameListReorder draggedItems items draggedOverItem currentDropType listId
    let shouldTriggerAction :=
      decide (0 < r.2.length) &&
        (currentDropType == some DropType.on || hasSortingAttribute)
    (r.1, if shouldTriggerAction then some (filterChanges changeJsonMode r.2) else none)

/-- `parseDragData` from `validation.ts` (lines 168-179).  `JSON.parse` is a
platform primitive, modelled as an abstract fallible parser `jsonParse`; the
`try`/`catch` converts its exception into `null`. -/
def parseDragData (jsonParse : String → Except String DragDataTransfer)
    (dataTransferData : Option String) : Option DragDataTransfer :=
  match dataTransferData with
  | none => none
  | some s =>
    if s == "" then none
    else
      match jsonParse s with
      | Except.ok v => some v
      | Except.error _ => none

/-! ### Spec-side reference definitions -/

/-- Modelled from the spec §4.4 (same list, before/after), emission rule: one
Change Record per item whose resulting array index differs from its original
position-derived index; only dragged items carry `dropType`/`targetItemId`. -/
def sameListChangesSpec (draggedUuids : List String) (targetUuid : String)
    (dt : DropType) (listId : String) (finalItems : List DragItem) : List ChangeRecord :=
  finalItems.enum.filterMap (fun p =>
    if p.2.originalIndex ≠ (p.1 : Int) then
      some (if draggedUuids.contains p.2.uuid then
        { uuid := p.2.uuid, newIndex := some (p.1 : Int), sourceListId := listId,
          targetListId := listId, dropType := some dt, targetItemUuid := some targetUuid }
      else
        { uuid := p.2.uuid, newIndex := some (p.1 : Int), sourceListId := listId,
          targetListId := listId, dropType := none, targetItemUuid := none })
    else none)

/-- Modelled from the spec §4.4 (same list, before/after): remove all dragged
items (those selected by `sel`) from the current order, compute the insertion
index relative to the target item (+1 for after), splice the dragged items
back in as one contiguous run preserving their relative order, and emit the
records of `sameListChangesSpec`. -/
def sameListReorderSpec (sel : String → Bool) (allItems : List DragItem)
    (target : DragItem) (isAfter : Bool) (listId : String) :
    List DragItem × List ChangeRecord :=
  let dragged := allItems.filter (fun i => sel i.uuid)
  let rest := allItems.filter (fun i => !(sel i.uuid))
  let k := (rest.findIdx? (fun i => i.uuid == target.uuid)).getD 0
  let fin := if isAfter then k + 1 else k
  let newItems := rest.take fin ++ dragged ++ rest.drop fin
  (newItems,
   sameListChangesSpec (dragged.map (fun i => i.uuid)) target.uuid
     (if isAfter then DropType.after else DropType.before) listId newItems)

/-- Modelled from the spec §4.4: the source-list survivors, in their original
relative order, re-indexed densely `0..n-1`, with `sourceListId` =
`targetListId` = the original source list. -/
def sourceReindexSpec (itemsBeingDragged : List String) (sourceListId : String)
    (sourceListAllItems : List SourceItem) : List ChangeRecord :=
  (sourceListAllItems.filter (fun it => !(itemsBeingDragged.contains it.uuid))).enum.map
    (fun p => { uuid := p.2.uuid, newIndex := some (p.1 : Int), sourceListId := sourceListId,
                targetListId := sourceListId, dropType := none, targetItemUuid := none })

/-- Modelled from the spec §4.4 (cross list, target non-empty): the virtual
merged order = [unmoved target-list items before the target] ++ [dragged
items, in drag order] ++ [remaining target-list items]; `Sum.inl` marks a
dragged uuid, `Sum.inr` a pre-existing target-list item. -/
def mergedOrderSpec (itemsBeingDragged : List String) (existingItems : List DragItem)
    (insertIndex : Nat) : List (String ⊕ DragItem) :=
  (existingItems.take insertIndex).map Sum.inr
  ++ itemsBeingDragged.map Sum.inl
  ++ (existingItems.drop insertIndex).map Sum.inr

/-- Modelled from the spec §4.4 (cross list, target non-empty, before/after):
every dragged item gets a record whose new index is its position in the
virtual order, with `dropType` and `targetItemId` set; every pre-existing
target-list item whose index shifted gets a pure re-index record with no
`dropType`; then the source-list survivors are re-indexed. -/
def crossListBeforeAfterSpec (itemsBeingDragged : List String)
    (existingItems : List DragItem) (insertIndex : Nat) (dropType : DropType)
    (sourceListId targetListId targetItemUuid : String)
    (sourceListAllItems : List SourceItem) : List ChangeRecord :=
  (mergedOrderSpec itemsBeingDragged existingItems insertIndex).enum.filterMap (fun p =>
    match p.2 with
    | Sum.inl u =>
      some { uuid := u, newIndex := some (p.1 : Int), sourceListId := sourceListId,
             targetListId := targetListId, dropType := some dropType,
             targetItemUuid := some targetItemUuid }
    | Sum.inr it =>
      if it.originalIndex ≠ (p.1 : Int) then
        some { uuid := it.uuid, newIndex := some (p.1 : Int), sourceListId := targetListId,
               targetListId := targetListId, dropType := none, targetItemUuid := none }
      else none)
  ++ sourceReindexSpec itemsBeingDragged sourceListId sourceListAllItems

/-- Modelled from the spec §4.4 (cross list, target list empty): dragged items
receive sequential indices `0..k-1` in drag order with `dropType = after`;
source-list survivors are re-indexed. -/
def emptyListDropSpec (itemsBeingDragged : List String)
    (sourceListId targetListId : String) (sourceListAllItems : List SourceItem) :
    List ChangeRecord :=
  itemsBeingDragged.enum.map (fun p =>
    { uuid := p.2, newIndex := some (p.1 : Int), sourceListId := sourceListId,
      targetListId := targetListId, dropType := some DropType.after, targetItemUuid := none })
  ++ sourceReindexSpec itemsBeingDragged sourceListId sourceListAllItems

/-- Proof-side bridge between the spec's tagged merged order and the code's
virtual items. -/
def sumToVirtual : String ⊕ DragItem → VirtualItem
  | Sum.inl u => { uuid := u, isNew := true }
  | Sum.inr it => { uuid := it.uuid, isNew := false }

/-- Indices, counted from `n`, of the elements of a list satisfying `p`
(proof-side description of the index list collected by `removeDragged`). -/
def idxsFrom (p : α → Bool) (n : Nat) : List α → List Nat
  | [] => []
  | x :: xs => if p x then n :: idxsFrom p (n + 1) xs else idxsFrom p (n + 1) xs

/-! ### Order-relation instances for the embedded stable sorts -/

instance : IsTotal DragItem (fun a b => a.originalIndex ≤ b.originalIndex) :=
  ⟨fun a b => le_total a.originalIndex b.originalIndex⟩

instance : IsTrans DragItem (fun a b => a.originalIndex ≤ b.originalIndex) :=
  ⟨fun _ _ _ hab hbc => le_trans hab hbc⟩

instance : IsTotal SourceItem (fun a b => a.originalIndex ≤ b.originalIndex) :=
  ⟨fun a b => le_total a.originalIndex b.originalIndex⟩

instance : IsTrans SourceItem (fun a b => a.originalIndex ≤ b.originalIndex) :=
  ⟨fun _ _ _ hab hbc => le_trans hab hbc⟩

instance : IsTotal Nat (fun a b => b ≤ a) := ⟨fun a b => le_total b a⟩

instance : IsTrans Nat (fun a b => b ≤ a) := ⟨fun _ _ _ hab hbc => le_trans hbc hab⟩

instance : IsAntisymm Nat (fun a b => b ≤ a) := ⟨fun _ _ h1 h2 => le_antisymm h2 h1⟩

/-! ### Theorems -/

/-- Claim C1 (code_bug evidence): on a same-list drop with zone `on`, the code
does NOT leave the order unchanged: dropping item `a` (at position 0) onto
item `b` in the list `[a, b, c]` yields the order `[b, c, a]` - the removed
dragged items are appended at the end instead of being restored to their
original slots - while the emitted Change Records are exactly one per dragged
item with `newIndex = null`, `dropType = on`, `targetItemUuid = b`, as the
claim states. -/
theorem sameListOnDrop_appends_dragged_to_end :
    handleSameListReorder
      [{ uuid := "a", originalIndex := 0, listId := "L" }]
      [{ uuid := "a", originalIndex := 0, listId := "L" },
       { uuid := "b", originalIndex := 1, listId := "L" },
       { uuid := "c", originalIndex := 2, listId := "L" }]
      { uuid := "b", originalIndex := 1, listId := "L" }
      (some DropType.on) "L"
    = ([{ uuid := "b", originalIndex := 1, listId := "L" },
        { uuid := "c", originalIndex := 2, listId := "L" },
        { uuid := "a", originalIndex := 0, listId := "L" }],
       [{ uuid := "a", newIndex := none, sourceListId := "L", targetListId := "L",
          dropType := some DropType.on, targetItemUuid := some "b" }])
    ∧ ([{ uuid := "b", originalIndex := 1, listId := "L" },
        { uuid := "c", originalIndex := 2, listId := "L" },
        { uuid := "a", originalIndex := 0, listId := "L" }] : List DragItem)
      ≠ [{ uuid := "a", originalIndex := 0, listId := "L" },
         { uuid := "b", originalIndex := 1, listId := "L" },
         { uuid := "c", originalIndex := 2, listId := "L" }] := by
  constructor
  · decide
  · decide

/-- Claim C7: `isDropAllowed` returns false when the source's allowed-targets
configuration is unset, empty or whitespace-only; otherwise it returns true
iff the target list id is a member of the parsed allowed-targets list. -/
theorem isDropAllowed_spec :
    (∀ src tgt : String, isDropAllowed none src tgt = false)
    ∧ (∀ (s src tgt : String), trimChars s.data = [] → isDropAllowed (some s) src tgt = false)
    ∧ (∀ (s src tgt : String), trimChars s.data ≠ [] →
        (isDropAllowed (some s) src tgt = true ↔ tgt ∈ parseAllowedLists (some s))) := by
  refine ⟨fun src tgt => rfl, fun s src tgt h => ?_, fun s src tgt h => ?_⟩
  · simp [isDropAllowed, h]
  · have hs : s ≠ "" := by
      intro he
      subst he
      exact h rfl
    simp [isDropAllowed, parseAllowedLists, hs, h]

/-- Claim C7 witness: a configured list " a ,b " (with whitespace) accepts
target "b" and is indeed non-blank. -/
theorem isDropAllowed_spec_witness :
    (trimChars " a ,b ".data ≠ [] ∧ "b" ∈ parseAllowedLists (some " a ,b "))
    ∧ isDropAllowed (some " a ,b ") "x" "b" = true := by
  refine ⟨⟨by decide, by decide⟩, ?_⟩
  exact (isDropAllowed_spec.2.2 " a ,b " "x" "b" (by decide)).mpr (by decide)

/-- Claim C9: on a same-list drop whose hovered target is among the dragged
items (in particular a self-drop), `handleSameListDrop` is a no-op: the items
state is unchanged and no Change Record batch is written. -/
theorem sameListDrop_selfDrop_noop (allowedLists : Option String) (listId : String)
    (draggedItems : List DragItem) (draggedOverItem : DragItem)
    (currentDropType : Option DropType) (items : List DragItem)
    (hasSortingAttribute : Bool) (changeJsonMode : ChangeJsonMode)
    (h : draggedItems.any (fun i => i.uuid == draggedOverItem.uuid) = true) :
    handleSameListDrop allowedLists listId draggedItems draggedOverItem
      currentDropType items hasSortingAttribute changeJsonMode = (items, none) := by
  unfold handleSameListDrop
  cases hA : isDropAllowed (some (allowedLists.getD "")) listId listId <;> simp [hA, h]

/-- Claim C9 witness: dropping item a onto itself in the list [a, b] with
same-list drops permitted is a no-op. -/
theorem sameListDrop_selfDrop_noop_witness :
    (([{ uuid := "a", originalIndex := 0, listId := "L" }] : List DragItem).any
        (fun i => i.uuid == "a") = true)
    ∧ handleSameListDrop (some "L") "L"
        [{ uuid := "a", originalIndex := 0, listId := "L" }]
        { uuid := "a", originalIndex := 0, listId := "L" }
        (some DropType.before)
        [{ uuid := "a", originalIndex := 0, listId := "L" },
         { uuid := "b", originalIndex := 1, listId := "L" }]
        true ChangeJsonMode.fullChange
      = ([{ uuid := "a", originalIndex := 0, listId := "L" },
          { uuid := "b", originalIndex := 1, listId := "L" }], none) := by
  refine ⟨by decide, ?_⟩
  exact sameListDrop_selfDrop_noop (some "L") "L" _ _ (some DropType.before) _ true
    ChangeJsonMode.fullChange (by decide)

/-- Claim C8: `getDropZone` is total (a Lean function, defined for every
rectangle and pointer position); a non-auto mode forces its own zone
irrespective of pointer position; in auto mode with on-drops disallowed the
rectangle splits into two equal halves (upper half before, lower half after);
with on-drops allowed it splits into three equal thirds, top to bottom
before / on / after. -/
theorem getDropZone_spec :
    (∀ (allow : Bool) (top hgt y : ℚ),
        getDropZone DropOption.before allow top hgt y = DropType.before)
    ∧ (∀ (allow : Bool) (top hgt y : ℚ),
        getDropZone DropOption.on allow top hgt y = DropType.on)
    ∧ (∀ (allow : Bool) (top hgt y : ℚ),
        getDropZone DropOption.after allow top hgt y = DropType.after)
    ∧ (∀ top hgt y : ℚ, getDropZone DropOption.auto false top hgt y
        = if 2 * (y - top) < hgt then DropType.before else DropType.after)
    ∧ (∀ top hgt y : ℚ, getDropZone DropOption.auto true top hgt y
        = if 3 * (y - top) < hgt then DropType.before
          else if 3 * (y - top) < 2 * hgt then DropType.on
          else DropType.after) := by
  refine ⟨fun _ _ _ _ => rfl, fun _ _ _ _ => rfl, fun _ _ _ _ => rfl,
    fun top hgt y => ?_, fun top hgt y => ?_⟩
  · show (if y - top < hgt / 2 then DropType.before else DropType.after) = _
    refine if_congr ?_ rfl rfl
    rw [lt_div_iff₀ (by norm_num : (0:ℚ) < 2), mul_comm]
  · show (if y - top < hgt / 3 then DropType.before
        else if y - top < hgt / 3 * 2 then DropType.on else DropType.after) = _
    refine if_congr ?_ rfl (if_congr ?_ rfl rfl)
    · rw [lt_div_iff₀ (by norm_num : (0:ℚ) < 3), mul_comm]
    · rw [show hgt / 3 * 2 = 2 * hgt / 3 by ring,
        lt_div_iff₀ (by norm_num : (0:ℚ) < 3), mul_comm]

/-- A stable ascending sort leaves an already-sorted `SourceItem` list as is. -/
theorem sortSourceItems_of_sorted {l : List SourceItem}
    (h : List.Pairwise (fun a b => a.originalIndex ≤ b.originalIndex) l) :
    sortSourceItems l = l :=
  List.Sorted.insertionSort_eq h

/-- When the source-list snapshot is listed in ascending position order (as
`handleDragStart` always supplies it), the survivor re-indexing of the code
agrees with the spec's "original relative order" description. -/
theorem generateSourceListReindexing_eq_spec (src : List SourceItem)
    (moved : List String) (sId : String)
    (hsrc : List.Pairwise (fun a b => a.originalIndex ≤ b.originalIndex) src) :
    generateSourceListReindexing src moved sId = sourceReindexSpec moved sId src := by
  unfold generateSourceListReindexing sourceReindexSpec
  rw [sortSourceItems_of_sorted (List.Pairwise.filter _ hsrc)]

/-- Claim C6: a cross-list drop of k items into an empty target list gives the
dragged items sequential indices 0..k-1 in drag order, each with
`dropType = after`, and re-indexes the source-list survivors densely 0..n-1
in their original relative order. -/
theorem dropToEmptyList_matchesSpec (dragged : List String) (sId tId : String)
    (src : List SourceItem)
    (hsrc : List.Pairwise (fun a b => a.originalIndex ≤ b.originalIndex) src) :
    handleDropToEmptyList dragged sId tId (some src)
      = emptyListDropSpec dragged sId tId src := by
  unfold handleDropToEmptyList emptyListDropSpec
  show List.map _ dragged.enum ++ generateSourceListReindexing src dragged sId = _
  rw [generateSourceListReindexing_eq_spec src dragged sId hsrc]

/-- Claim C6 witness: dropping [x, y] from source S (snapshot [x, p, y, q])
into the empty list T. -/
theorem dropToEmptyList_matchesSpec_witness :
    List.Pairwise (fun a b : SourceItem => a.originalIndex ≤ b.originalIndex)
      [{ uuid := "x", originalIndex := 0 }, { uuid := "p", originalIndex := 1 },
       { uuid := "y", originalIndex := 2 }, { uuid := "q", originalIndex := 3 }]
    ∧ handleDropToEmptyList ["x", "y"] "S" "T"
        (some [{ uuid := "x", originalIndex := 0 }, { uuid := "p", originalIndex := 1 },
               { uuid := "y", originalIndex := 2 }, { uuid := "q", originalIndex := 3 }])
      = emptyListDropSpec ["x", "y"] "S" "T"
          [{ uuid := "x", originalIndex := 0 }, { uuid := "p", originalIndex := 1 },
           { uuid := "y", originalIndex := 2 }, { uuid := "q", originalIndex := 3 }] := by
  refine ⟨by decide, ?_⟩
  exact dropToEmptyList_matchesSpec ["x", "y"] "S" "T" _ (by decide)

/-- The second component of an `enum` entry is a member of the list. -/
theorem snd_mem_of_mem_enum {α : Type _} {l : List α} {p : Nat × α} (h : p ∈ l.enum) :
    p.2 ∈ l := by
  have h2 := List.mem_map_of_mem Prod.snd h
  rwa [List.enum_map_snd] at h2

/-- The mapping phase of `initializeItems` keeps distinct sorting values
distinct (as `originalIndex`) when every datasource row carries one. -/
theorem toDragItems_pairwise_ne (items : List SourceDataItem) (listId : String)
    (hall : ∀ it ∈ items, it.sortValue.isSome = true)
    (hdist : items.Pairwise (fun a b => a.sortValue ≠ b.sortValue)) :
    (toDragItems items true listId).Pairwise
      (fun a b => a.originalIndex ≠ b.originalIndex) := by
  unfold toDragItems
  rw [List.pairwise_map]
  have henum : items.enum.Pairwise
      (fun p q : Nat × SourceDataItem => p.2.sortValue ≠ q.2.sortValue) := by
    have h0 := hdist
    rw [← List.enum_map_snd items, List.pairwise_map] at h0
    exact h0
  refine List.Pairwise.imp_of_mem ?_ henum
  intro p q hp hq hne
  obtain ⟨v1, hv1⟩ := Option.isSome_iff_exists.mp (hall p.2 (snd_mem_of_mem_enum hp))
  obtain ⟨v2, hv2⟩ := Option.isSome_iff_exists.mp (hall q.2 (snd_mem_of_mem_enum hq))
  rw [hv1, hv2] at hne
  simp only [hv1, hv2, if_true]
  simpa using hne

/-- Claim C2: for a datasource in which every item carries a sorting value and
the values are pairwise distinct, `initializeItems` returns the mapped items
sorted strictly ascending by position, irrespective of the array order in
which they were supplied. -/
theorem initializeItems_sortedByPosition (items : List SourceDataItem) (listId : String)
    (hall : ∀ it ∈ items, it.sortValue.isSome = true)
    (hdist : items.Pairwise (fun a b => a.sortValue ≠ b.sortValue)) :
    List.Sorted (fun a b : DragItem => a.originalIndex < b.originalIndex)
      (initializeItems (some items) true listId)
    ∧ (initializeItems (some items) true listId).Perm (toDragItems items true listId) := by
  have hperm : (initializeItems (some items) true listId).Perm
      (toDragItems items true listId) := List.perm_insertionSort _ _
  refine ⟨?_, hperm⟩
  have hle : List.Sorted (fun a b : DragItem => a.originalIndex ≤ b.originalIndex)
      (initializeItems (some items) true listId) := List.sorted_insertionSort _ _
  have hne : (initializeItems (some items) true listId).Pairwise
      (fun a b => a.originalIndex ≠ b.originalIndex) :=
    (List.Perm.pairwise_iff (fun h => Ne.symm h) hperm).mpr
      (toDragItems_pairwise_ne items listId hall hdist)
  exact (List.Pairwise.and hle hne).imp (fun hab => lt_of_le_of_ne hab.1 hab.2)

/-- Claim C2 witness: rows supplied in the order A(pos 5), B(pos 2) come out in
the position order B, A. -/
theorem initializeItems_sortedByPosition_witness :
    ((∀ it ∈ ([{ uuidValue := some "A", sortValue := some 5 },
               { uuidValue := some "B", sortValue := some 2 }] : List SourceDataItem),
        it.sortValue.isSome = true)
      ∧ ([{ uuidValue := some "A", sortValue := some 5 },
          { uuidValue := some "B", sortValue := some 2 }] : List SourceDataItem).Pairwise
          (fun a b => a.sortValue ≠ b.sortValue))
    ∧ (List.Sorted (fun a b : DragItem => a.originalIndex < b.originalIndex)
        (initializeItems (some [{ uuidValue := some "A", sortValue := some 5 },
                                { uuidValue := some "B", sortValue := some 2 }]) true "L")
      ∧ (initializeItems (some [{ uuidValue := some "A", sortValue := some 5 },
                                { uuidValue := some "B", sortValue := some 2 }]) true "L").Perm
          (toDragItems [{ uuidValue := some "A", sortValue := some 5 },
                        { uuidValue := some "B", sortValue := some 2 }] true "L"))
    ∧ initializeItems (some [{ uuidValue := some "A", sortValue := some 5 },
                             { uuidValue := some "B", sortValue := some 2 }]) true "L"
      = [{ uuid := "B", originalIndex := 2, listId := "L" },
         { uuid := "A", originalIndex := 5, listId := "L" }] := by
  refine ⟨⟨by decide, by decide⟩,
    initializeItems_sortedByPosition _ "L" (by decide) (by decide), by decide⟩

/-- With pairwise-distinct uuids, looking an item up by its own uuid finds the
item itself. -/
theorem find?_uuid_self {l : List DragItem} (hnd : (l.map (fun i => i.uuid)).Nodup)
    {a : DragItem} (ha : a ∈ l) : l.find? (fun i => i.uuid == a.uuid) = some a := by
  induction l with
  | nil => cases ha
  | cons b bs ih =>
    rw [List.map_cons, List.nodup_cons] at hnd
    rcases List.mem_cons.mp ha with rfl | hmem
    · rw [List.find?_cons]
      simp
    · have hne : (b.uuid == a.uuid) = false := by
        refine beq_eq_false_iff_ne.mpr ?_
        intro he
        exact hnd.1 (he ▸ List.mem_map_of_mem (fun i => i.uuid) hmem)
      rw [List.find?_cons, hne]
      exact ih hnd.2 hmem

/-- An `inr` entry of the merged order is a pre-existing target-list item. -/
theorem inr_mem_merged {dragged : List String} {existing : List DragItem} {n : Nat}
    {it : DragItem} (h : Sum.inr it ∈ mergedOrderSpec dragged existing n) :
    it ∈ existing := by
  unfold mergedOrderSpec at h
  rcases List.mem_append.mp h with h1 | h2
  · rcases List.mem_append.mp h1 with ha | hb
    · obtain ⟨x, hx, he⟩ := List.mem_map.mp ha
      have hxe : x = it := by simpa using he
      subst hxe
      exact List.mem_of_mem_take hx
    · obtain ⟨u, _, he⟩ := List.mem_map.mp hb
      simp at he
  · obtain ⟨x, hx, he⟩ := List.mem_map.mp h2
    have hxe : x = it := by simpa using he
    subst hxe
    exact List.mem_of_mem_drop hx

/-- The code's virtual-item array is the image of the spec's merged order. -/
theorem virtualItems_eq_merged_map (dragged : List String) (existing : List DragItem)
    (n : Nat) :
    (existing.take n).map (fun i => ({ uuid := i.uuid, isNew := false } : VirtualItem))
      ++ dragged.map (fun u => ({ uuid := u, isNew := true } : VirtualItem))
      ++ (existing.drop n).map (fun i => ({ uuid := i.uuid, isNew := false } : VirtualItem))
    = (mergedOrderSpec dragged existing n).map sumToVirtual := by
  unfold mergedOrderSpec
  rw [List.map_append, List.map_append, List.map_map, List.map_map, List.map_map]
  rfl

/-- Claim C5: a cross-list before/after drop into a non-empty target list (with
distinct target uuids, an in-range insertion index and the source snapshot in
ascending position order) produces exactly the records the spec describes:
dragged items at their virtual-order indices with dropType/targetItemUuid set,
shifted pre-existing items as pure re-index records, and the source survivors
re-indexed densely in their original relative order. -/
theorem crossListBeforeAfter_matchesSpec (dragged : List String)
    (existing : List DragItem) (insertIndex : Nat) (dt : DropType)
    (sId tId tUuid : String) (src : List SourceItem)
    (hnd : (existing.map (fun i => i.uuid)).Nodup)
    (_hidx : insertIndex ≤ existing.length)
    (hsrc : List.Pairwise (fun a b => a.originalIndex ≤ b.originalIndex) src) :
    handleCrossListBeforeAfterDrop dragged existing insertIndex dt sId tId tUuid (some src)
      = crossListBeforeAfterSpec dragged existing insertIndex dt sId tId tUuid src := by
  simp only [handleCrossListBeforeAfterDrop, crossListBeforeAfterSpec]
  congr 1
  · rw [virtualItems_eq_merged_map dragged existing insertIndex, List.enum_map,
      List.filterMap_map]
    refine List.filterMap_congr ?_
    intro p hp
    obtain ⟨n, s⟩ := p
    cases s with
    | inl u => rfl
    | inr it =>
      have hmem : it ∈ existing := inr_mem_merged (snd_mem_of_mem_enum hp)
      simp only [Function.comp_apply, Prod.map_apply, id_eq, sumToVirtual]
      rw [find?_uuid_self hnd hmem]
      rfl
  · exact generateSourceListReindexing_eq_spec src dragged sId hsrc

/-- Claim C5 witness: dropping [x, y] from list S (snapshot [x, s, y]) before
item q in target list T = [p, q]. -/
theorem crossListBeforeAfter_matchesSpec_witness :
    (([{ uuid := "p", originalIndex := 0, listId := "T" },
       { uuid := "q", originalIndex := 1, listId := "T" }] : List DragItem).map
        (fun i => i.uuid)).Nodup
    ∧ (1 ≤ ([{ uuid := "p", originalIndex := 0, listId := "T" },
             { uuid := "q", originalIndex := 1, listId := "T" }] : List DragItem).length)
    ∧ List.Pairwise (fun a b : SourceItem => a.originalIndex ≤ b.originalIndex)
        [{ uuid := "x", originalIndex := 0 }, { uuid := "s", originalIndex := 1 },
         { uuid := "y", originalIndex := 2 }]
    ∧ handleCrossListBeforeAfterDrop ["x", "y"]
        [{ uuid := "p", originalIndex := 0, listId := "T" },
         { uuid := "q", originalIndex := 1, listId := "T" }] 1 DropType.before
        "S" "T" "q"
        (some [{ uuid := "x", originalIndex := 0 }, { uuid := "s", originalIndex := 1 },
               { uuid := "y", originalIndex := 2 }])
      = crossListBeforeAfterSpec ["x", "y"]
          [{ uuid := "p", originalIndex := 0, listId := "T" },
           { uuid := "q", originalIndex := 1, listId := "T" }] 1 DropType.before
          "S" "T" "q"
          [{ uuid := "x", originalIndex := 0 }, { uuid := "s", originalIndex := 1 },
           { uuid := "y", originalIndex := 2 }] := by
  refine ⟨by decide, by decide, by decide, ?_⟩
  exact crossListBeforeAfter_matchesSpec ["x", "y"] _ 1 DropType.before "S" "T" "q" _
    (by decide) (by decide) (by decide)

/-- Shifting the starting offset of `idxsFrom` shifts every index. -/
theorem idxsFrom_succ (p : α → Bool) (n : Nat) (l : List α) :
    idxsFrom p (n + 1) l = (idxsFrom p n l).map (fun i => i + 1) := by
  induction l generalizing n with
  | nil => rfl
  | cons x xs ih => cases hx : p x <;> simp [idxsFrom, hx, ih]

/-- Every index produced by `idxsFrom` is at least the starting offset. -/
theorem le_of_mem_idxsFrom {p : α → Bool} {m : Nat} {l : List α} :
    ∀ {n : Nat}, m ∈ idxsFrom p n l → n ≤ m := by
  induction l with
  | nil => intro n h; cases h
  | cons x xs ih =>
    intro n h
    unfold idxsFrom at h
    by_cases hx : p x = true
    · rw [if_pos hx] at h
      rcases List.mem_cons.mp h with rfl | h2
      · exact le_refl m
      · exact Nat.le_of_succ_le (ih h2)
    · rw [if_neg hx] at h
      exact Nat.le_of_succ_le (ih h)

/-- `idxsFrom` is strictly increasing. -/
theorem idxsFrom_sorted (p : α → Bool) (n : Nat) (l : List α) :
    List.Sorted (fun a b : Nat => a < b) (idxsFrom p n l) := by
  induction l generalizing n with
  | nil => exact List.sorted_nil
  | cons x xs ih =>
    unfold idxsFrom
    by_cases hx : p x = true
    · rw [if_pos hx]
      exact List.sorted_cons.mpr
        ⟨fun b hb => lt_of_lt_of_le (Nat.lt_succ_self n) (le_of_mem_idxsFrom hb), ih (n + 1)⟩
    · rw [if_neg hx]
      exact ih (n + 1)

/-- Unfolding lemma for `idxsFrom` on a cons cell. -/
theorem idxsFrom_cons (p : α → Bool) (n : Nat) (x : α) (xs : List α) :
    idxsFrom p n (x :: xs)
      = if p x then n :: idxsFrom p (n + 1) xs else idxsFrom p (n + 1) xs := rfl

/-- Sorting a strictly ascending index list descending just reverses it. -/
theorem sortIndicesDesc_of_ascending {l : List Nat}
    (h : List.Sorted (fun a b : Nat => a < b) l) :
    sortIndicesDesc l = l.reverse := by
  have h1 : (sortIndicesDesc l).Perm l.reverse :=
    (List.perm_insertionSort _ l).trans (List.reverse_perm l).symm
  have h2 : List.Sorted (fun a b : Nat => b ≤ a) (sortIndicesDesc l) :=
    List.sorted_insertionSort _ l
  have h3 : List.Sorted (fun a b : Nat => b ≤ a) l.reverse :=
    List.pairwise_reverse.mpr (List.Pairwise.imp (fun hab => le_of_lt hab) h)
  exact List.eq_of_perm_of_sorted h1 h2 h3

/-- With pairwise-distinct uuids, the indices collected for the `sel`-selected
sublist are exactly the positions of the selected elements, ascending. -/
theorem draggedIndices_eq_idxsFrom (sel : String → Bool) (l : List DragItem)
    (hnd : (l.map (fun i => i.uuid)).Nodup) :
    ∀ n : Nat,
      (l.filter (fun i => sel i.uuid)).filterMap
          (fun d => List.findIdx? (fun i => i.uuid == d.uuid) l n)
        = idxsFrom (fun i => sel i.uuid) n l := by
  induction l with
  | nil => intro n; rfl
  | cons x xs ih =>
    intro n
    rw [List.map_cons, List.nodup_cons] at hnd
    have hcongr : ∀ d ∈ xs.filter (fun i => sel i.uuid),
        List.findIdx? (fun i => i.uuid == d.uuid) (x :: xs) n
          = List.findIdx? (fun i => i.uuid == d.uuid) xs (n + 1) := by
      intro d hd
      have hdx : (x.uuid == d.uuid) = false := by
        refine beq_eq_false_iff_ne.mpr ?_
        intro he
        refine hnd.1 ?_
        rw [he]
        exact List.mem_map_of_mem (fun i => i.uuid) (List.mem_filter.mp hd).1
      rw [List.findIdx?_cons, hdx]
      simp
    by_cases hx : sel x.uuid = true
    · have hhead : List.findIdx? (fun i => i.uuid == x.uuid) (x :: xs) n = some n := by
        rw [List.findIdx?_cons]
        simp
      rw [List.filter_cons, if_pos hx, List.filterMap_cons, hhead,
        List.filterMap_congr hcongr, ih hnd.2 (n + 1), idxsFrom_cons, if_pos hx]
    · rw [List.filter_cons, if_neg hx, List.filterMap_congr hcongr, ih hnd.2 (n + 1),
        idxsFrom_cons, if_neg hx]

/-- Splicing at successor indices leaves the head untouched. -/
theorem foldl_spliceStep_map_succ (idxs : List Nat) (x : DragItem) :
    ∀ (xs acc : List DragItem),
      (idxs.map (fun i => i + 1)).foldl spliceStep (x :: xs, acc)
        = (x :: (idxs.foldl spliceStep (xs, acc)).1, (idxs.foldl spliceStep (xs, acc)).2) := by
  induction idxs with
  | nil => intro xs acc; rfl
  | cons i is ih =>
    intro xs acc
    rw [List.map_cons, List.foldl_cons, List.foldl_cons]
    cases hy : xs[i]? with
    | some y =>
      have h1 : spliceStep (x :: xs, acc) (i + 1) = (x :: xs.eraseIdx i, y :: acc) := by
        show (match (x :: xs)[i + 1]? with
              | some z => ((x :: xs).eraseIdx (i + 1), z :: acc)
              | none => (x :: xs, acc)) = _
        rw [List.getElem?_cons_succ, hy, List.eraseIdx_cons_succ]
      have h2 : spliceStep (xs, acc) i = (xs.eraseIdx i, y :: acc) := by
        show (match xs[i]? with
              | some z => (xs.eraseIdx i, z :: acc)
              | none => (xs, acc)) = _
        rw [hy]
      rw [h1, h2, ih]
    | none =>
      have h1 : spliceStep (x :: xs, acc) (i + 1) = (x :: xs, acc) := by
        show (match (x :: xs)[i + 1]? with
              | some z => ((x :: xs).eraseIdx (i + 1), z :: acc)
              | none => (x :: xs, acc)) = _
        rw [List.getElem?_cons_succ, hy]
      have h2 : spliceStep (xs, acc) i = (xs, acc) := by
        show (match xs[i]? with
              | some z => (xs.eraseIdx i, z :: acc)
              | none => (xs, acc)) = _
        rw [hy]
      rw [h1, h2, ih]

/-- The splice loop, run over the descending positions of the `p`-elements,
removes exactly those elements and accumulates them in list order. -/
theorem foldl_spliceStep_reverse_idxs (p : DragItem → Bool) (l : List DragItem) :
    ∀ acc : List DragItem,
      ((idxsFrom p 0 l).reverse).foldl spliceStep (l, acc)
        = (l.filter (fun x => !(p x)), l.filter p ++ acc) := by
  induction l with
  | nil => intro acc; rfl
  | cons x xs ih =>
    intro acc
    cases hx : p x with
    | true =>
      have hidx : idxsFrom p 0 (x :: xs) = 0 :: (idxsFrom p 0 xs).map (fun i => i + 1) := by
        rw [idxsFrom_cons, if_pos hx, idxsFrom_succ]
      rw [hidx, List.reverse_cons, List.foldl_append, ← List.map_reverse,
        foldl_spliceStep_map_succ, ih acc, List.foldl_cons, List.foldl_nil]
      have hstep : spliceStep (x :: xs.filter (fun y => !(p y)), xs.filter p ++ acc) 0
          = (xs.filter (fun y => !(p y)), x :: (xs.filter p ++ acc)) := by
        show (match (x :: xs.filter (fun y => !(p y)))[0]? with
              | some z => ((x :: xs.filter (fun y => !(p y))).eraseIdx 0,
                           z :: (xs.filter p ++ acc))
              | none => (x :: xs.filter (fun y => !(p y)), xs.filter p ++ acc)) = _
        rw [List.getElem?_cons_zero, List.eraseIdx_cons_zero]
      rw [hstep, List.filter_cons_of_neg (by simp [hx]), List.filter_cons_of_pos hx,
        List.cons_append]
    | false =>
      have hidx : idxsFrom p 0 (x :: xs) = (idxsFrom p 0 xs).map (fun i => i + 1) := by
        rw [idxsFrom_cons, if_neg (by simp [hx]), idxsFrom_succ]
      rw [hidx, ← List.map_reverse, foldl_spliceStep_map_succ, ih acc,
        List.filter_cons_of_pos (by simp [hx]), List.filter_cons_of_neg (by simp [hx])]

/-- The removal phase of `handleSameListReorder`, on a list with distinct uuids
and dragged items given as the `sel`-selected sublist, splits the list into
the kept part and the dragged part, both in list order. -/
theorem removeDragged_eq_filter (sel : String → Bool) (l : List DragItem)
    (hnd : (l.map (fun i => i.uuid)).Nodup) :
    removeDragged l (l.filter (fun i => sel i.uuid))
      = (l.filter (fun i => !(sel i.uuid)), l.filter (fun i => sel i.uuid)) := by
  simp only [removeDragged]
  rw [draggedIndices_eq_idxsFrom sel l hnd 0,
    sortIndicesDesc_of_ascending (idxsFrom_sorted _ 0 l),
    foldl_spliceStep_reverse_idxs, List.append_nil]

/-- A member satisfying the predicate makes `findIdx?` succeed. -/
theorem findIdx?_mem_isSome {α : Type _} {pr : α → Bool} {a : α} {l : List α}
    (ha : a ∈ l) (hp : pr a = true) : ∀ n, ∃ k, List.findIdx? pr l n = some k := by
  induction l with
  | nil => cases ha
  | cons x xs ih =>
    intro n
    rw [List.findIdx?_cons]
    by_cases hx : pr x = true
    · exact ⟨n, by rw [if_pos hx]⟩
    · rcases List.mem_cons.mp ha with rfl | hmem
      · exact absurd hp hx
      · rw [if_neg hx]
        exact ih hmem (n + 1)

/-- Core refinement: a same-list before/after drop computes exactly the
spec-side reorder: remove the selected items, re-insert them as one contiguous
run at the target's index (+1 for after), and emit the spec's change records. -/
theorem sameListReorder_eq_spec (sel : String → Bool) (allItems : List DragItem)
    (target : DragItem) (dt : DropType) (listId : String)
    (hnd : (allItems.map (fun i => i.uuid)).Nodup)
    (hmem : target ∈ allItems)
    (hsel : sel target.uuid = false)
    (hdt : dt ≠ DropType.on) :
    handleSameListReorder (allItems.filter (fun i => sel i.uuid)) allItems target
      (some dt) listId
      = sameListReorderSpec sel allItems target (dt == DropType.after) listId := by
  obtain ⟨j, hj⟩ := @findIdx?_mem_isSome DragItem (fun i => i.uuid == target.uuid)
    target allItems hmem (by simp) 0
  have hmem2 : target ∈ allItems.filter (fun i => !(sel i.uuid)) :=
    List.mem_filter.mpr ⟨hmem, by rw [hsel]; rfl⟩
  obtain ⟨k, hk⟩ := @findIdx?_mem_isSome DragItem (fun i => i.uuid == target.uuid)
    target (allItems.filter (fun i => !(sel i.uuid))) hmem2 (by simp) 0
  cases dt
  · simp only [handleSameListReorder, sameListReorderSpec, sameListChangesSpec, hj,
      Option.isNone_some, Bool.false_eq_true, if_false,
      removeDragged_eq_filter sel allItems hnd, hk, Option.getD_some]
    rfl
  · simp only [handleSameListReorder, sameListReorderSpec, sameListChangesSpec, hj,
      Option.isNone_some, Bool.false_eq_true, if_false,
      removeDragged_eq_filter sel allItems hnd, hk, Option.getD_some]
    rfl
  · exact absurd rfl hdt

/-- Claim C3: on a same-list before/after drop (distinct uuids, dragged items =
the selected sublist of the list, target present and not dragged), the code's
result equals the spec's: dragged items removed and re-inserted as one
contiguous run at the target index (+1 for after) in their relative order, and
one change record per item whose resulting index differs from its original
position, only dragged items carrying dropType/targetItemUuid. -/
theorem sameListBeforeAfter_matchesSpec (sel : String → Bool) (allItems : List DragItem)
    (target : DragItem) (dt : DropType) (listId : String)
    (hnd : (allItems.map (fun i => i.uuid)).Nodup)
    (hmem : target ∈ allItems)
    (hsel : sel target.uuid = false)
    (hdt : dt ≠ DropType.on) :
    handleSameListReorder (allItems.filter (fun i => sel i.uuid)) allItems target
      (some dt) listId
      = sameListReorderSpec sel allItems target (dt == DropType.after) listId :=
  sameListReorder_eq_spec sel allItems target dt listId hnd hmem hsel hdt

/-- Claim C3 witness: in [a, b, c], dragging a after b. -/
theorem sameListBeforeAfter_matchesSpec_witness :
    ((([{ uuid := "a", originalIndex := 0, listId := "L" },
        { uuid := "b", originalIndex := 1, listId := "L" },
        { uuid := "c", originalIndex := 2, listId := "L" }] : List DragItem).map
          (fun i => i.uuid)).Nodup
      ∧ ({ uuid := "b", originalIndex := 1, listId := "L" } : DragItem)
          ∈ ([{ uuid := "a", originalIndex := 0, listId := "L" },
              { uuid := "b", originalIndex := 1, listId := "L" },
              { uuid := "c", originalIndex := 2, listId := "L" }] : List DragItem)
      ∧ (("b" == "a") = false) ∧ DropType.after ≠ DropType.on)
    ∧ handleSameListReorder
        (([{ uuid := "a", originalIndex := 0, listId := "L" },
           { uuid := "b", originalIndex := 1, listId := "L" },
           { uuid := "c", originalIndex := 2, listId := "L" }] : List DragItem).filter
          (fun i => i.uuid == "a"))
        [{ uuid := "a", originalIndex := 0, listId := "L" },
         { uuid := "b", originalIndex := 1, listId := "L" },
         { uuid := "c", originalIndex := 2, listId := "L" }]
        { uuid := "b", originalIndex := 1, listId := "L" }
        (some DropType.after) "L"
      = sameListReorderSpec (fun u => u == "a")
          [{ uuid := "a", originalIndex := 0, listId := "L" },
           { uuid := "b", originalIndex := 1, listId := "L" },
           { uuid := "c", originalIndex := 2, listId := "L" }]
          { uuid := "b", originalIndex := 1, listId := "L" }
          (DropType.after == DropType.after) "L" := by
  refine ⟨⟨by decide, by decide, by decide, by decide⟩, ?_⟩
  exact sameListBeforeAfter_matchesSpec (fun u => u == "a") _ _ DropType.after "L"
    (by decide) (by decide) (by decide) (by decide)

/-- Inserting a run in the middle of a split list is a permutation of putting
it in front. -/
theorem take_middle_perm {α : Type _} (A m : List α) (n : Nat) :
    (A.take n ++ m ++ A.drop n).Perm (m ++ A) := by
  rw [List.append_assoc]
  refine List.Perm.trans (List.Perm.append_left _ List.perm_append_comm) ?_
  rw [← List.append_assoc, List.take_append_drop]
  exact List.perm_append_comm

/-- The uuids mentioned by the spec-side change records are exactly the items
whose resulting index differs from their original position. -/
theorem sameListChangesSpec_uuid_iff (dUs : List String) (tU : String) (dt : DropType)
    (lid : String) (L : List DragItem) (u : String) :
    (∃ c ∈ sameListChangesSpec dUs tU dt lid L, c.uuid = u)
      ↔ ∃ p ∈ L.enum, p.2.uuid = u ∧ p.2.originalIndex ≠ (p.1 : Int) := by
  unfold sameListChangesSpec
  constructor
  · rintro ⟨c, hc, hcu⟩
    obtain ⟨p, hp, hfp⟩ := List.mem_filterMap.mp hc
    by_cases hne : p.2.originalIndex ≠ (p.1 : Int)
    · refine ⟨p, hp, ?_, hne⟩
      rw [if_pos hne] at hfp
      have hcp : c.uuid = p.2.uuid := by
        have hcc := Option.some_inj.mp hfp
        cases hctn : dUs.contains p.2.uuid <;> rw [hctn] at hcc <;> rw [← hcc] <;> rfl
      rw [← hcp, hcu]
    · rw [if_neg hne] at hfp
      cases hfp
  · rintro ⟨p, hp, hu, hne⟩
    refine ⟨if dUs.contains p.2.uuid then
        { uuid := p.2.uuid, newIndex := some (p.1 : Int), sourceListId := lid,
          targetListId := lid, dropType := some dt, targetItemUuid := some tU }
      else
        { uuid := p.2.uuid, newIndex := some (p.1 : Int), sourceListId := lid,
          targetListId := lid, dropType := none, targetItemUuid := none }, ?_, ?_⟩
    · refine List.mem_filterMap.mpr ⟨p, hp, ?_⟩
      rw [if_pos hne]
    · cases hctn : dUs.contains p.2.uuid <;> simp [hctn, hu]

/-- Claim C4: a same-list before/after drop conserves the multiset of uuids,
and the uuids of the emitted change records are exactly the items whose
resulting index differs from their original position. -/
theorem sameListBeforeAfter_conservation (sel : String → Bool) (allItems : List DragItem)
    (target : DragItem) (dt : DropType) (listId : String)
    (hnd : (allItems.map (fun i => i.uuid)).Nodup)
    (hmem : target ∈ allItems)
    (hsel : sel target.uuid = false)
    (hdt : dt ≠ DropType.on) :
    ((handleSameListReorder (allItems.filter (fun i => sel i.uuid)) allItems target
        (some dt) listId).1.map (fun i => i.uuid)).Perm
      (allItems.map (fun i => i.uuid))
    ∧ ∀ u : String,
        (∃ c ∈ (handleSameListReorder (allItems.filter (fun i => sel i.uuid)) allItems
            target (some dt) listId).2, c.uuid = u)
        ↔ ∃ p ∈ (handleSameListReorder (allItems.filter (fun i => sel i.uuid)) allItems
            target (some dt) listId).1.enum,
            p.2.uuid = u ∧ p.2.originalIndex ≠ (p.1 : Int) := by
  rw [sameListReorder_eq_spec sel allItems target dt listId hnd hmem hsel hdt]
  constructor
  · simp only [sameListReorderSpec]
    refine List.Perm.map _ ?_
    exact (take_middle_perm _ _ _).trans (List.filter_append_perm _ allItems)
  · intro u
    simp only [sameListReorderSpec]
    exact sameListChangesSpec_uuid_iff _ _ _ _ _ u

/-- Claim C4 witness: in [a, b, c], dragging a before c. -/
theorem sameListBeforeAfter_conservation_witness :
    ((([{ uuid := "a", originalIndex := 0, listId := "L" },
        { uuid := "b", originalIndex := 1, listId := "L" },
        { uuid := "c", originalIndex := 2, listId := "L" }] : List DragItem).map
          (fun i => i.uuid)).Nodup
      ∧ ({ uuid := "c", originalIndex := 2, listId := "L" } : DragItem)
          ∈ ([{ uuid := "a", originalIndex := 0, listId := "L" },
              { uuid := "b", originalIndex := 1, listId := "L" },
              { uuid := "c", originalIndex := 2, listId := "L" }] : List DragItem)
      ∧ (("c" == "a") = false) ∧ DropType.before ≠ DropType.on)
    ∧ (((handleSameListReorder
          (([{ uuid := "a", originalIndex := 0, listId := "L" },
             { uuid := "b", originalIndex := 1, listId := "L" },
             { uuid := "c", originalIndex := 2, listId := "L" }] : List DragItem).filter
            (fun i => i.uuid == "a"))
          [{ uuid := "a", originalIndex := 0, listId := "L" },
           { uuid := "b", originalIndex := 1, listId := "L" },
           { uuid := "c", originalIndex := 2, listId := "L" }]
          { uuid := "c", originalIndex := 2, listId := "L" }
          (some DropType.before) "L").1.map (fun i => i.uuid)).Perm
        (([{ uuid := "a", originalIndex := 0, listId := "L" },
           { uuid := "b", originalIndex := 1, listId := "L" },
           { uuid := "c", originalIndex := 2, listId := "L" }] : List DragItem).map
          (fun i => i.uuid))
      ∧ ∀ u : String,
          (∃ c ∈ (handleSameListReorder
              (([{ uuid := "a", originalIndex := 0, listId := "L" },
                 { uuid := "b", originalIndex := 1, listId := "L" },
                 { uuid := "c", originalIndex := 2, listId := "L" }] : List DragItem).filter
                (fun i => i.uuid == "a"))
              [{ uuid := "a", originalIndex := 0, listId := "L" },
               { uuid := "b", originalIndex := 1, listId := "L" },
               { uuid := "c", originalIndex := 2, listId := "L" }]
              { uuid := "c", originalIndex := 2, listId := "L" }
              (some DropType.before) "L").2, c.uuid = u)
          ↔ ∃ p ∈ (handleSameListReorder
              (([{ uuid := "a", originalIndex := 0, listId := "L" },
                 { uuid := "b", originalIndex := 1, listId := "L" },
                 { uuid := "c", originalIndex := 2, listId := "L" }] : List DragItem).filter
                (fun i => i.uuid == "a"))
              [{ uuid := "a", originalIndex := 0, listId := "L" },
               { uuid := "b", originalIndex := 1, listId := "L" },
               { uuid := "c", originalIndex := 2, listId := "L" }]
              { uuid := "c", originalIndex := 2, listId := "L" }
              (some DropType.before) "L").1.enum,
              p.2.uuid = u ∧ p.2.originalIndex ≠ (p.1 : Int)) := by
  refine ⟨⟨by decide, by decide, by decide, by decide⟩, ?_⟩
  exact sameListBeforeAfter_conservation (fun u => u == "a") _ _ DropType.before "L"
    (by decide) (by decide) (by decide) (by decide)

/-- Claim C10: `parseDragData` is total and never throws: it returns `none` on
an absent, empty or unparsable input, and the parsed drag context exactly when
the platform JSON parser succeeds. -/
theorem parseDragData_spec (jsonParse : String → Except String DragDataTransfer) :
    parseDragData jsonParse none = none
    ∧ parseDragData jsonParse (some "") = none
    ∧ (∀ (s : String) (v : DragDataTransfer), s ≠ "" →
        (parseDragData jsonParse (some s) = some v ↔ jsonParse s = Except.ok v))
    ∧ (∀ (s e : String), s ≠ "" → jsonParse s = Except.error e →
        parseDragData jsonParse (some s) = none) := by
  refine ⟨rfl, by simp [parseDragData], fun s v hs => ?_, fun s e hs he => ?_⟩
  · simp only [parseDragData, beq_iff_eq, if_neg hs]
    cases hj : jsonParse s <;> simp [hj]
  · simp [parseDragData, hs, he]

/-- Claim C10 witness: a concrete parser succeeding on "good" and failing on
anything else; `parseDragData` returns the parsed object on "good" and `none`
on the unparsable "bad". -/
theorem parseDragData_spec_witness :
    (("good" : String) ≠ "" ∧ ("bad" : String) ≠ "")
    ∧ parseDragData
        (fun s => if s = "good"
          then Except.ok { sourceListId := "S", sourceListAllowedLists := none,
                           itemUuids := [], sourceListAllItems := none }
          else Except.error "syntax")
        (some "good")
      = some { sourceListId := "S", sourceListAllowedLists := none,
               itemUuids := [], sourceListAllItems := none }
    ∧ parseDragData
        (fun s => if s = "good"
          then Except.ok { sourceListId := "S", sourceListAllowedLists := none,
                           itemUuids := [], sourceListAllItems := none }
          else Except.error "syntax")
        (some "bad")
      = none := by
  refine ⟨⟨by decide, by decide⟩, ?_, ?_⟩
  · exact ((parseDragData_spec _).2.2.1 "good" _ (by decide)).mpr (by simp)
  · exact (parseDragData_spec _).2.2.2 "bad" "syntax" (by decide) (by simp)

end ReactDnD
